import Mathlib

/-!
Verification of the mhlo bufferization strategies in
`hlo_legalize_to_memref.cc` (Reshape, DynamicReshape,
DynamicBroadcastInDim), embedded shallowly.

IR values built by the rewrites are modelled symbolically by `IRVal`;
every builder call (`b->create<...>`) additionally appends a descriptor
to a log of emitted operations (`EOp`), so that claims about which
operations a rewrite emits are statable.  Runtime evaluation of the
emitted arithmetic is `IRVal.eval` under an environment supplying the
runtime operand dimension sizes (`memref.dim` results) and the runtime
contents of the `output_dimensions` shape operand (`tensor.extract`
results).
-/

/-- Symbolic value of an emitted IR operation, as used by the
DynamicBroadcastInDim rewrite. -/
inductive IRVal where
  | constIndex (n : Int)
  | dimOp (d : Nat)
  | mulI (a b : IRVal)
  | extract (d : Nat)
  | indexCast (v : IRVal)
  | cmpSlt (a b : IRVal)
  | select (c t f : IRVal)
deriving DecidableEq, Repr

/-- Descriptor of an operation emitted by a rewrite (one entry per
`b->create<...>` call, in emission order). -/
inductive EOp where
  | constantIndexOp (n : Int)
  | dimOp (d : Nat)
  | mulIOp
  | extractOp (d : Nat)
  | indexCastOp
  | cmpIOp
  | selectOp
  | reinterpretCastOp
  | allocOp
  | copyOp
  | castOp
  | reshapeOp
deriving DecidableEq, Repr

/-- Runtime environment: actual operand dimension sizes (what a
`memref.dim` on the operand buffer returns) and actual contents of the
1-D `output_dimensions` shape operand (what `tensor.extract` returns). -/
structure Env where
  operandDim : Nat → Int
  outputDims : Nat → Int

/-- Runtime evaluation of a symbolic IR value.  `arith.cmpi slt` yields
1 for true and 0 for false; `arith.select` takes its first branch when
the condition is 1. -/
def IRVal.eval (env : Env) : IRVal → Int
  | .constIndex n => n
  | .dimOp d => env.operandDim d
  | .mulI a b => a.eval env * b.eval env
  | .extract d => env.outputDims d
  | .indexCast v => v.eval env
  | .cmpSlt a b => if a.eval env < b.eval env then 1 else 0
  | .select c t f => if c.eval env = 1 then t.eval env else f.eval env

/-- Static memref shape entry: `some n` is a static extent, `none` is a
dynamic extent (the `ShapedType::kDynamicSize` sentinel). -/
abbrev StaticShape := List (Option Int)

/-- Value of `operand_dim_size` in the stride scan: a `memref.dim` read
when the static size is unknown, a constant otherwise
(lines 166-170 of the source). -/
def sizeIRVal (s : Option Int) (i : Nat) : IRVal :=
  match s with
  | none => IRVal.dimOp i
  | some n => IRVal.constIndex n

/-- Operation emitted while materializing `operand_dim_size` for
dimension `i`. -/
def sizeEOp (s : Option Int) (i : Nat) : EOp :=
  match s with
  | none => EOp.dimOp i
  | some n => EOp.constantIndexOp n

/-- Loop body of the reversed scan-product loop (source lines 165-178),
processing operand dimensions `j, j-1, ..., 0` with incoming
`stride_so_far`.  Returns (`operand_sizes`, `operand_strides`) in
dimension order together with the emitted-op log in emission order. -/
def strideLoopFrom (shape : StaticShape) :
    Nat → IRVal → List IRVal × List IRVal × List EOp
  | 0, strideSoFar =>
      ([sizeIRVal (shape.getD 0 none) 0], [strideSoFar],
       [sizeEOp (shape.getD 0 none) 0])
  | j + 1, strideSoFar =>
      let sv := sizeIRVal (shape.getD (j + 1) none) (j + 1)
      let rest := strideLoopFrom shape j (IRVal.mulI strideSoFar sv)
      (rest.1 ++ [sv], rest.2.1 ++ [strideSoFar],
       sizeEOp (shape.getD (j + 1) none) (j + 1) :: EOp.mulIOp :: rest.2.2)

/-- Flattened-stride scan of `InsertDynamicMemrefCastOp` (source lines
159-178): `operand_sizes`, `operand_strides` and the ops emitted.  For a
rank-0 operand the loop body never runs. -/
def computeOperandSizesStrides (shape : StaticShape) :
    List IRVal × List IRVal × List EOp :=
  match shape.length with
  | 0 => ([], [], [])
  | r + 1 => strideLoopFrom shape r (IRVal.constIndex 1)

/-- Loop body of the `output_to_input_dim` map construction (source
lines 184-187): a `DenseMap` insert in which a later entry with the same
key overwrites an earlier one. -/
def o2iAux (d : Int) : List Int → Nat → Option Nat → Option Nat
  | [], _, acc => acc
  | v :: rest, j, acc => o2iAux d rest (j + 1) (if v = d then some j else acc)

/-- Lookup of output dimension `d` in the inverse broadcast-dimension
map: the index of the last entry of `broadcast_dimensions` equal to `d`,
if any. -/
def outputToInputDim (bdims : List Int) (d : Int) : Option Nat :=
  o2iAux d bdims 0 none

/-- Runtime size of operand dimension `k`: the static extent when known,
otherwise the environment's `memref.dim` answer. -/
def realSize (env : Env) (shape : StaticShape) (k : Nat) : Int :=
  match shape.getD k none with
  | some n => n
  | none => env.operandDim k

/-- Product of `realSize` over dimensions `lo, lo+1, ..., lo+n-1`. -/
def prodSizesFrom (env : Env) (shape : StaticShape) (lo : Nat) : Nat → Int
  | 0 => 1
  | n + 1 => prodSizesFrom env shape lo n * realSize env shape (lo + n)

/-- Specification of the flattened linear stride of operand dimension
`k`: the product of the sizes of all dimensions to its right. -/
def flatStrideSpec (env : Env) (shape : StaticShape) (k : Nat) : Int :=
  prodSizesFrom env shape (k + 1) (shape.length - (k + 1))

theorem strideLoopFrom_sizes_length (shape : StaticShape) :
    ∀ j sofar, (strideLoopFrom shape j sofar).1.length = j + 1 := by
  intro j
  induction j with
  | zero => intro sofar; simp [strideLoopFrom]
  | succ j ih => intro sofar; simp [strideLoopFrom, ih]

theorem strideLoopFrom_strides_length (shape : StaticShape) :
    ∀ j sofar, (strideLoopFrom shape j sofar).2.1.length = j + 1 := by
  intro j
  induction j with
  | zero => intro sofar; simp [strideLoopFrom]
  | succ j ih => intro sofar; simp [strideLoopFrom, ih]

theorem strideLoopFrom_sizes_getD (shape : StaticShape) :
    ∀ j sofar k, k ≤ j →
      (strideLoopFrom shape j sofar).1.getD k (IRVal.constIndex 1) =
        sizeIRVal (shape.getD k none) k := by
  intro j
  induction j with
  | zero =>
      intro sofar k hk
      interval_cases k
      simp [strideLoopFrom]
  | succ j ih =>
      intro sofar k hk
      rcases Nat.lt_or_ge k (j + 1) with h | h
      · have hlen : k < (strideLoopFrom shape j
            (IRVal.mulI sofar (sizeIRVal (shape.getD (j + 1) none) (j + 1)))).1.length := by
          rw [strideLoopFrom_sizes_length]; omega
        simp only [strideLoopFrom]
        rw [List.getD_append _ _ _ _ hlen]
        exact ih (IRVal.mulI sofar (sizeIRVal (shape.getD (j + 1) none) (j + 1)))
          k (by omega)
      · have hk1 : k = j + 1 := by omega
        subst hk1
        simp only [strideLoopFrom]
        rw [List.getD_append_right _ _ _ _ (by rw [strideLoopFrom_sizes_length])]
        simp [strideLoopFrom_sizes_length]

theorem sizeIRVal_eval (env : Env) (shape : StaticShape) (k : Nat) :
    IRVal.eval env (sizeIRVal (shape.getD k none) k) = realSize env shape k := by
  unfold realSize
  cases hsp : shape.getD k none <;> simp [sizeIRVal, IRVal.eval]

theorem strideLoopFrom_strides_eval (shape : StaticShape) (env : Env) :
    ∀ j sofar k, k ≤ j →
      IRVal.eval env
          ((strideLoopFrom shape j sofar).2.1.getD k (IRVal.constIndex 1)) =
        IRVal.eval env sofar * prodSizesFrom env shape (k + 1) (j - k) := by
  intro j
  induction j with
  | zero =>
      intro sofar k hk
      interval_cases k
      simp [strideLoopFrom, prodSizesFrom]
  | succ j ih =>
      intro sofar k hk
      rcases Nat.lt_or_ge k (j + 1) with h | h
      · have hk2 : k ≤ j := by omega
        have hlen : k < (strideLoopFrom shape j
            (IRVal.mulI sofar (sizeIRVal (shape.getD (j + 1) none) (j + 1)))).2.1.length := by
          rw [strideLoopFrom_strides_length]; omega
        simp only [strideLoopFrom]
        rw [List.getD_append _ _ _ _ hlen, ih _ k hk2]
        have hsub : j + 1 - k = (j - k) + 1 := by omega
        rw [hsub]
        simp only [prodSizesFrom]
        have hidx : k + 1 + (j - k) = j + 1 := by omega
        rw [hidx]
        simp only [IRVal.eval]
        rw [sizeIRVal_eval]
        ring
      · have hk1 : k = j + 1 := by omega
        subst hk1
        simp only [strideLoopFrom]
        rw [List.getD_append_right _ _ _ _ (by rw [strideLoopFrom_strides_length])]
        simp [strideLoopFrom_strides_length, prodSizesFrom]

theorem operandStrides_eval (shape : StaticShape) (env : Env) (i : Nat) :
    IRVal.eval env
        ((computeOperandSizesStrides shape).2.1.getD i (IRVal.constIndex 1)) =
      flatStrideSpec env shape i := by
  unfold computeOperandSizesStrides flatStrideSpec
  cases hlen : shape.length with
  | zero => simp [prodSizesFrom, IRVal.eval]
  | succ r =>
      rcases Nat.lt_or_ge i (r + 1) with h | h
      · have := strideLoopFrom_strides_eval shape env r (IRVal.constIndex 1) i (by omega)
        simp only [IRVal.eval] at this
        rw [this]
        have : r + 1 - (i + 1) = r - i := by omega
        rw [this, one_mul]
      · rw [List.getD_eq_default _ _ (by rw [strideLoopFrom_strides_length]; omega)]
        have : r + 1 - (i + 1) = 0 := by omega
        rw [this]
        simp [prodSizesFrom, IRVal.eval]

theorem strideLoopFrom_dimOp_mem (shape : StaticShape) (i : Nat) :
    ∀ j sofar,
      (EOp.dimOp i ∈ (strideLoopFrom shape j sofar).2.2 ↔
        (i ≤ j ∧ shape.getD i none = none)) := by
  intro j
  induction j with
  | zero =>
      intro sofar
      cases hsp : shape.getD 0 none with
      | none =>
          simp only [strideLoopFrom, sizeEOp, hsp, List.mem_singleton, EOp.dimOp.injEq]
          constructor
          · rintro rfl; exact ⟨Nat.le_refl 0, hsp⟩
          · rintro ⟨h1, _⟩; omega
      | some n =>
          simp only [strideLoopFrom, sizeEOp, hsp, List.mem_singleton]
          constructor
          · intro h; simp at h
          · rintro ⟨h1, h2⟩
            interval_cases i
            rw [hsp] at h2
            cases h2
  | succ j ih =>
      intro sofar
      cases hsp : shape.getD (j + 1) none with
      | none =>
          simp only [strideLoopFrom, sizeEOp, hsp, List.mem_cons, EOp.dimOp.injEq,
            ih]
          constructor
          · rintro (rfl | h | ⟨h1, h2⟩)
            · exact ⟨Nat.le_refl _, hsp⟩
            · simp at h
            · exact ⟨by omega, h2⟩
          · rintro ⟨h1, h2⟩
            by_cases hij : i = j + 1
            · exact Or.inl hij
            · exact Or.inr (Or.inr ⟨by omega, h2⟩)
      | some n =>
          simp only [strideLoopFrom, sizeEOp, hsp, List.mem_cons, ih]
          constructor
          · rintro (h | h | ⟨h1, h2⟩)
            · simp at h
            · simp at h
            · exact ⟨by omega, h2⟩
          · rintro ⟨h1, h2⟩
            by_cases hij : i = j + 1
            · subst hij; rw [hsp] at h2; cases h2
            · exact Or.inr (Or.inr ⟨by omega, h2⟩)

theorem strideLoopFrom_log_shape (shape : StaticShape) :
    ∀ j sofar, ∀ e ∈ (strideLoopFrom shape j sofar).2.2,
      (∃ n, e = EOp.constantIndexOp n) ∨ (∃ d, e = EOp.dimOp d) ∨ e = EOp.mulIOp := by
  intro j
  induction j with
  | zero =>
      intro sofar e he
      simp only [strideLoopFrom, List.mem_singleton] at he
      subst he
      cases hsp : shape.getD 0 none with
      | none => exact Or.inr (Or.inl ⟨0, by simp [sizeEOp, hsp]⟩)
      | some n => exact Or.inl ⟨n, by simp [sizeEOp, hsp]⟩
  | succ j ih =>
      intro sofar e he
      simp only [strideLoopFrom, List.mem_cons] at he
      rcases he with rfl | rfl | he
      · cases hsp : shape.getD (j + 1) none with
        | none => exact Or.inr (Or.inl ⟨j + 1, by simp [sizeEOp, hsp]⟩)
        | some n => exact Or.inl ⟨n, by simp [sizeEOp, hsp]⟩
      · exact Or.inr (Or.inr rfl)
      · exact ih _ e he

/-- Entry of the `sizes` vector of the reinterpret cast: an
`OpFoldResult`, either a runtime value or a static index attribute. -/
inductive OFR where
  | val (v : IRVal)
  | attr (n : Int)
deriving DecidableEq, Repr

/-- Memref type: static shape, element type tag, and layout.  A layout
of `none` is the identity (row-major, unit-stride, zero-offset) layout,
as produced by the two-argument `MemRefType::get`; `some (strides, off)`
is a strided layout map where a stride entry of `none` stands for the
`kDynamicStrideOrOffset` sentinel. -/
structure MemRefTy where
  shape : StaticShape
  elemTy : Nat
  layout : Option (List (Option Int) × Int)
deriving DecidableEq, Repr

/-- Tensor type of an operation operand or result. -/
inductive TensorTy where
  | ranked (shape : StaticShape) (elemTy : Nat)
  | unranked (elemTy : Nat)
deriving DecidableEq, Repr

/-- Value of `result_dim_size` for output dimension `i`: the
`tensor.extract` of the shape operand at `i`, index-cast when the shape
operand's element type is not `index` (source lines 190-195). -/
def resultDimSizeVal (isIdx : Bool) (i : Nat) : IRVal :=
  if isIdx then IRVal.extract i else IRVal.indexCast (IRVal.extract i)

/-- Body of the per-output-dimension loop of `InsertDynamicMemrefCastOp`
(source lines 188-222) at output dimension `i`: the pushed size entry,
the pushed stride value, and the ops emitted during the iteration. -/
def broadcastDimStep (operandSizesL operandStridesL : List IRVal)
    (bdims : List Int) (resultShape : StaticShape) (isIdx : Bool) (i : Nat) :
    OFR × IRVal × List EOp :=
  let rds := resultDimSizeVal isIdx i
  let sz : OFR :=
    match resultShape.getD i none with
    | none => OFR.val rds
    | some n => OFR.attr n
  let baseLog := [EOp.constantIndexOp (Int.ofNat i), EOp.extractOp i] ++
    (if isIdx then [] else [EOp.indexCastOp])
  match outputToInputDim bdims (Int.ofNat i) with
  | none => (sz, IRVal.constIndex 0, baseLog)
  | some dim =>
      (sz,
       IRVal.select
         (IRVal.cmpSlt (operandSizesL.getD dim (IRVal.constIndex 1)) rds)
         (IRVal.constIndex 0)
         (operandStridesL.getD dim (IRVal.constIndex 1)),
       baseLog ++ [EOp.cmpIOp, EOp.selectOp])

/-- Descriptor of the emitted `memref.reinterpret_cast`: its result
type, the static offset operand attribute, and the size/stride operand
lists. -/
structure ReinterpretCastDesc where
  ty : MemRefTy
  offsetAttr : Int
  sizes : List OFR
  strides : List IRVal
deriving DecidableEq, Repr

/-- Shallow embedding of `InsertDynamicMemrefCastOp` (source lines
146-236): from the operand buffer's static shape and element type, the
result's static shape, the `broadcast_dimensions` attribute and the
shape-operand element-type flag, compute the reinterpret cast emitted
and the full emitted-op log (the `zero`/`one` constants, the stride
scan, the per-output-dimension loop, then the cast itself). -/
def InsertDynamicMemrefCastOp (operandShape : StaticShape)
    (resultShape : StaticShape) (bdims : List Int) (isIdx : Bool)
    (et : Nat) : ReinterpretCastDesc × List EOp :=
  let scan := computeOperandSizesStrides operandShape
  let steps := (List.range resultShape.length).map
    (broadcastDimStep scan.1 scan.2.1 bdims resultShape isIdx)
  ({ ty := { shape := resultShape, elemTy := et,
             layout := some (List.replicate resultShape.length none, 0) },
     offsetAttr := 0,
     sizes := steps.map (fun s => s.1),
     strides := steps.map (fun s => s.2.1) },
   [EOp.constantIndexOp 0, EOp.constantIndexOp 1] ++ scan.2.2 ++
     (steps.map (fun s => s.2.2)).flatten ++ [EOp.reinterpretCastOp])

/-- Descriptor of an emitted `memref.alloc`: its (identity-layout)
result type and its dynamic-size operands. -/
structure AllocDesc where
  ty : MemRefTy
  dynamicSizes : List IRVal
deriving DecidableEq, Repr

/-- Shallow embedding of `CreateCopy` (source lines 238-260): from the
broadcasted view's memref type, gather one runtime size per dynamic
result dimension from the shape operand, allocate an identity-layout
buffer of the result shape, and copy the view into it. -/
def CreateCopy (isIdx : Bool) (broadTy : MemRefTy) : AllocDesc × List EOp :=
  let pieces := (List.range broadTy.shape.length).map (fun i =>
    match broadTy.shape.getD i none with
    | some _ => (([] : List IRVal), ([] : List EOp))
    | none =>
        ([resultDimSizeVal isIdx i],
         [EOp.constantIndexOp (Int.ofNat i), EOp.extractOp i] ++
           (if isIdx then [] else [EOp.indexCastOp])))
  ({ ty := { shape := broadTy.shape, elemTy := broadTy.elemTy, layout := none },
     dynamicSizes := (pieces.map (fun p => p.1)).flatten },
   (pieces.map (fun p => p.2)).flatten ++ [EOp.allocOp, EOp.copyOp])

/-- The `mhlo.dynamic_broadcast_in_dim` operation, restricted to the
data this rewrite consumes: its result tensor type, its
`broadcast_dimensions` attribute, and whether the `output_dimensions`
operand's element type is `index`. -/
structure DynamicBroadcastInDimOp where
  resultType : TensorTy
  broadcast_dimensions : List Int
  outputDimsIsIndex : Bool

/-- Dialect-scoped bufferization state of the mhlo dialect: the
copy-materialization policy predicate. -/
structure MhloBufferizationState where
  enforce_identity_map_fn : DynamicBroadcastInDimOp → Bool

/-- Bufferized result value of the DynamicBroadcastInDim rewrite:
either the strided view itself or the allocated copy. -/
inductive BufValue where
  | view (c : ReinterpretCastDesc)
  | copied (a : AllocDesc)

/-- Outcome of `DynamicBroadcastInDimOpInterface::bufferize`. -/
inductive DynBroadcastOutcome where
  | failure
  | assertFail
  | success (v : BufValue) (log : List EOp)

/-- Shallow embedding of
`DynamicBroadcastInDimOpInterface::bufferize` (source lines 287-313).
`operandBuffer` is the result of `state.getBuffer` on the data operand
(`none` when buffer lookup fails); `dialectState` is the result of
`state.getDialectState` for the mhlo namespace (`none` when the policy
object was never initialized, in which case the assert at line 306
fires). -/
def DynamicBroadcastInDimOpInterface.bufferize
    (op : DynamicBroadcastInDimOp) (operandBuffer : Option MemRefTy)
    (dialectState : Option MhloBufferizationState) : DynBroadcastOutcome :=
  match op.resultType with
  | TensorTy.unranked _ => DynBroadcastOutcome.failure
  | TensorTy.ranked rShape _ =>
    match operandBuffer with
    | none => DynBroadcastOutcome.failure
    | some obuf =>
      let r := InsertDynamicMemrefCastOp obuf.shape rShape
        op.broadcast_dimensions op.outputDimsIsIndex obuf.elemTy
      match dialectState with
      | none => DynBroadcastOutcome.assertFail
      | some st =>
        if st.enforce_identity_map_fn op then
          let c := CreateCopy op.outputDimsIsIndex r.1.ty
          DynBroadcastOutcome.success (BufValue.copied c.1) (r.2 ++ c.2)
        else
          DynBroadcastOutcome.success (BufValue.view r.1) r.2

/-- The `mhlo.reshape` operation: its operand tensor type and the
static shape and element type of its (ranked) result.  The result of an
`mhlo.reshape` is statically shaped, so the `cast<RankedTensorType>` at
source line 83 always succeeds and is modelled by storing the ranked
components directly. -/
structure ReshapeOp where
  operandType : TensorTy
  resultShape : StaticShape
  resultElemTy : Nat

/-- Buffer type produced by a reshape-family rewrite: a ranked memref,
or an `UnrankedMemRefType` with its memory space. -/
inductive BufTy where
  | rankedBuf (t : MemRefTy)
  | unrankedBuf (elemTy : Nat) (memorySpace : Nat)
deriving DecidableEq, Repr

/-- Outcome of the Reshape / DynamicReshape rewrites: failure (the
operation is left unreplaced and nothing is emitted) or success with the
emitted operation's result type and the emitted-op log. -/
inductive SimpleOutcome where
  | failure
  | success (ty : BufTy) (log : List EOp)
deriving DecidableEq, Repr

/-- Shallow embedding of `ReshapeOpInterface::bufferize` (source lines
71-89): fail unless the operand's tensor type is unranked; fail if the
operand's buffer cannot be obtained; otherwise emit a single
`memref.cast` of the operand buffer to the identity-layout memref of the
result's static shape and element type. -/
def ReshapeOpInterface.bufferize (op : ReshapeOp)
    (operandBuffer : Option MemRefTy) : SimpleOutcome :=
  match op.operandType with
  | TensorTy.ranked _ _ => SimpleOutcome.failure
  | TensorTy.unranked _ =>
    match operandBuffer with
    | none => SimpleOutcome.failure
    | some _ =>
        SimpleOutcome.success
          (BufTy.rankedBuf
            { shape := op.resultShape, elemTy := op.resultElemTy, layout := none })
          [EOp.castOp]

/-- The `mhlo.dynamic_reshape` operation, restricted to the data this
rewrite consumes: its result tensor type. -/
structure DynamicReshapeOp where
  resultType : TensorTy

/-- Shallow embedding of `DynamicReshapeOpInterface::bufferize` (source
lines 116-140): fail if the data operand's buffer cannot be obtained;
fail if the shape operand's buffer cannot be obtained; otherwise emit a
single `memref.reshape` whose result type is a ranked memref when the
result tensor type is ranked and an unranked memref (memory space 0)
otherwise. -/
def DynamicReshapeOpInterface.bufferize (op : DynamicReshapeOp)
    (operandBuffer shapeBuffer : Option MemRefTy) : SimpleOutcome :=
  match operandBuffer with
  | none => SimpleOutcome.failure
  | some _ =>
    match shapeBuffer with
    | none => SimpleOutcome.failure
    | some _ =>
        SimpleOutcome.success
          (match op.resultType with
           | TensorTy.ranked sh e =>
               BufTy.rankedBuf { shape := sh, elemTy := e, layout := none }
           | TensorTy.unranked e => BufTy.unrankedBuf e 0)
          [EOp.reshapeOp]

/-- The `bufferization::BufferRelation` enumeration.  The value `None`
makes no aliasing guarantee; `Equivalent` guarantees the result buffer
is the identical memory region as the aliased operand buffer. -/
inductive BufferRelation where
  | None
  | Equivalent
deriving DecidableEq, Repr

/-- Effect declarations of a bufferization strategy: the four
non-rewrite interface methods, each as a function of the operand (or
result) index. -/
structure OpEffects where
  bufferizesToMemoryRead : Nat → Bool
  bufferizesToMemoryWrite : Nat → Bool
  getAliasingOpResult : Nat → List Nat
  bufferRelation : Nat → BufferRelation

/-- Effect declarations of `ReshapeOpInterface` (source lines 50-69). -/
def ReshapeOpInterface.effects : OpEffects :=
  { bufferizesToMemoryRead := fun _ => false
    bufferizesToMemoryWrite := fun _ => false
    getAliasingOpResult := fun _ => [0]
    bufferRelation := fun _ => BufferRelation.Equivalent }

/-- Effect declarations of `DynamicReshapeOpInterface` (source lines
95-114). -/
def DynamicReshapeOpInterface.effects : OpEffects :=
  { bufferizesToMemoryRead := fun _ => false
    bufferizesToMemoryWrite := fun _ => false
    getAliasingOpResult := fun _ => [0]
    bufferRelation := fun _ => BufferRelation.Equivalent }

/-- Effect declarations of `DynamicBroadcastInDimOpInterface` (source
lines 265-285). -/
def DynamicBroadcastInDimOpInterface.effects : OpEffects :=
  { bufferizesToMemoryRead := fun _ => true
    bufferizesToMemoryWrite := fun _ => false
    getAliasingOpResult := fun _ => [0]
    bufferRelation := fun _ => BufferRelation.None }

/-- Namespace string of the mhlo dialect. -/
def mhloDialectNamespace : String := "mhlo"

/-- Bufferization options relevant to the pass: the dialect filter and
the registered dialect-state initializers (namespace, state produced by
the initializer). -/
structure BufferizationOptions where
  dialectFilter : List String
  dialectStateInitializers : List (String × MhloBufferizationState)

/-- Options built by `HloLegalizeToMemrefPass::runOnOperation` (source
lines 325-334): the mhlo dialect is allowed in the filter and a dialect
state initializer for the mhlo namespace is registered before
`bufferizeOp` runs.  The state the initializer constructs is the
default-constructed `MhloBufferizationState`, whose policy predicate is
defined outside this file; it is taken as a parameter. -/
def hloLegalizeToMemrefOptions (base : MhloBufferizationState) :
    BufferizationOptions :=
  { dialectFilter := [mhloDialectNamespace]
    dialectStateInitializers := [(mhloDialectNamespace, base)] }

/-- Modelled from the spec: the bufferization driver's
`getDialectState`, which is not under `src/` (it belongs to the external
bufferization infrastructure).  Per the spec, the pass stores the policy
object in the Bufferization State via the registered initializer before
any operation is rewritten, so a lookup for a registered namespace
returns that state. -/
def getDialectState (opts : BufferizationOptions) (ns : String) :
    Option MhloBufferizationState :=
  (opts.dialectStateInitializers.find? (fun p => p.1 == ns)).map (fun p => p.2)

theorem getD_map_range {α : Type} (f : Nat → α) (n i : Nat) (d : α)
    (h : i < n) : ((List.range n).map f).getD i d = f i := by
  rw [List.getD_eq_getElem _ _ (by simpa using h)]
  simp

theorem o2iAux_some (d : Int) :
    ∀ (bd : List Int) (j0 : Nat) (acc : Option Nat) (j : Nat),
      o2iAux d bd j0 acc = some j →
        acc = some j ∨ (j0 ≤ j ∧ j < j0 + bd.length) := by
  intro bd
  induction bd with
  | nil => intro j0 acc j h; exact Or.inl h
  | cons v rest ih =>
      intro j0 acc j h
      simp only [o2iAux] at h
      rcases ih (j0 + 1) _ j h with h2 | h2
      · by_cases hv : v = d
        · simp [hv] at h2
          right
          simp [List.length_cons]
          omega
        · simp [hv] at h2
          exact Or.inl h2
      · right
        simp [List.length_cons]
        omega

theorem outputToInputDim_lt (bd : List Int) (d : Int) (j : Nat)
    (h : outputToInputDim bd d = some j) : j < bd.length := by
  rcases o2iAux_some d bd 0 none j h with h2 | h2
  · cases h2
  · omega

theorem o2iAux_append (d v : Int) :
    ∀ (l : List Int) (j0 : Nat) (acc : Option Nat),
      o2iAux d (l ++ [v]) j0 acc =
        if v = d then some (j0 + l.length) else o2iAux d l j0 acc := by
  intro l
  induction l with
  | nil => intro j0 acc; by_cases hv : v = d <;> simp [o2iAux, hv]
  | cons w rest ih =>
      intro j0 acc
      simp only [List.cons_append, o2iAux, List.append_eq]
      rw [ih]
      by_cases hv : v = d
      · simp only [hv, if_true, List.length_cons, Option.some.injEq]
        omega
      · simp [hv]

theorem outputToInputDim_append (bd : List Int) (v d : Int) :
    outputToInputDim (bd ++ [v]) d =
      if v = d then some bd.length else outputToInputDim bd d := by
  unfold outputToInputDim
  rw [o2iAux_append]
  simp

theorem operandSizes_getD (shape : StaticShape) (j : Nat)
    (hj : j < shape.length) :
    (computeOperandSizesStrides shape).1.getD j (IRVal.constIndex 1) =
      sizeIRVal (shape.getD j none) j := by
  unfold computeOperandSizesStrides
  rcases hl : shape.length with _ | r
  · omega
  · simp only
    exact strideLoopFrom_sizes_getD shape r (IRVal.constIndex 1) j (by omega)

theorem insertCast_strides_getD (oS rS : StaticShape) (bd : List Int)
    (isIdx : Bool) (et : Nat) (d : Nat) (hd : d < rS.length) (dflt : IRVal) :
    (InsertDynamicMemrefCastOp oS rS bd isIdx et).1.strides.getD d dflt =
      (broadcastDimStep (computeOperandSizesStrides oS).1
        (computeOperandSizesStrides oS).2.1 bd rS isIdx d).2.1 := by
  unfold InsertDynamicMemrefCastOp
  simp only [List.map_map]
  rw [getD_map_range _ _ _ _ hd]
  simp [Function.comp]

theorem resultDimSizeVal_eval (env : Env) (isIdx : Bool) (i : Nat) :
    IRVal.eval env (resultDimSizeVal isIdx i) = env.outputDims i := by
  cases isIdx <;> simp [resultDimSizeVal, IRVal.eval]

theorem eval_strideSelect (env : Env) (a b s : IRVal) :
    IRVal.eval env
        (IRVal.select (IRVal.cmpSlt a b) (IRVal.constIndex 0) s) =
      if IRVal.eval env a < IRVal.eval env b then 0 else IRVal.eval env s := by
  simp only [IRVal.eval]
  by_cases h : IRVal.eval env a < IRVal.eval env b <;> simp [h]

theorem broadcastDimStep_log_shape (szs strs : List IRVal) (bd : List Int)
    (rS : StaticShape) (isIdx : Bool) (i : Nat) :
    ∀ e ∈ (broadcastDimStep szs strs bd rS isIdx i).2.2,
      (∃ n, e = EOp.constantIndexOp n) ∨ (∃ d, e = EOp.extractOp d) ∨
        e = EOp.indexCastOp ∨ e = EOp.cmpIOp ∨ e = EOp.selectOp := by
  intro e he
  rcases houtput : outputToInputDim bd (Int.ofNat i) with _ | dim <;>
    cases isIdx <;>
    simp [broadcastDimStep, houtput] at he <;>
    aesop

theorem computeOperandSizesStrides_log_shape (shape : StaticShape) :
    ∀ e ∈ (computeOperandSizesStrides shape).2.2,
      (∃ n, e = EOp.constantIndexOp n) ∨ (∃ d, e = EOp.dimOp d) ∨
        e = EOp.mulIOp := by
  intro e he
  unfold computeOperandSizesStrides at he
  rcases hl : shape.length with _ | r
  · rw [hl] at he; cases he
  · rw [hl] at he; exact strideLoopFrom_log_shape shape r _ e he

theorem computeOperandSizesStrides_dimOp_mem (shape : StaticShape) (i : Nat) :
    (EOp.dimOp i ∈ (computeOperandSizesStrides shape).2.2 ↔
      (i < shape.length ∧ shape.getD i none = none)) := by
  unfold computeOperandSizesStrides
  rcases hl : shape.length with _ | r
  · simp
  · rw [strideLoopFrom_dimOp_mem]
    constructor
    · rintro ⟨h1, h2⟩; exact ⟨by omega, h2⟩
    · rintro ⟨h1, h2⟩; exact ⟨by omega, h2⟩

theorem insertCast_log_shape (oS rS : StaticShape) (bd : List Int)
    (isIdx : Bool) (et : Nat) :
    ∀ e ∈ (InsertDynamicMemrefCastOp oS rS bd isIdx et).2,
      (∃ n, e = EOp.constantIndexOp n) ∨ (∃ d, e = EOp.dimOp d) ∨
        e = EOp.mulIOp ∨ (∃ d, e = EOp.extractOp d) ∨ e = EOp.indexCastOp ∨
        e = EOp.cmpIOp ∨ e = EOp.selectOp ∨ e = EOp.reinterpretCastOp := by
  intro e he
  unfold InsertDynamicMemrefCastOp at he
  simp only [List.mem_append, List.mem_cons, List.not_mem_nil, or_false,
    List.mem_singleton, List.mem_flatten, List.mem_map] at he
  rcases he with (((rfl | rfl) | h) | ⟨l, ⟨⟨s, ⟨⟨idx, ⟨hidx, rfl⟩⟩, rfl⟩⟩, hel⟩⟩) | rfl
  · exact Or.inl ⟨0, rfl⟩
  · exact Or.inl ⟨1, rfl⟩
  · rcases computeOperandSizesStrides_log_shape oS e h with h2 | h2 | h2
    · exact Or.inl h2
    · exact Or.inr (Or.inl h2)
    · exact Or.inr (Or.inr (Or.inl h2))
  · rcases broadcastDimStep_log_shape _ _ bd rS isIdx idx e hel with
      h2 | h2 | h2 | h2 | h2
    · exact Or.inl h2
    · exact Or.inr (Or.inr (Or.inr (Or.inl h2)))
    · exact Or.inr (Or.inr (Or.inr (Or.inr (Or.inl h2))))
    · exact Or.inr (Or.inr (Or.inr (Or.inr (Or.inr (Or.inl h2)))))
    · exact Or.inr (Or.inr (Or.inr (Or.inr (Or.inr (Or.inr (Or.inl h2))))))
  · exact Or.inr (Or.inr (Or.inr (Or.inr (Or.inr (Or.inr (Or.inr rfl))))))

theorem insertCast_no_alloc (oS rS : StaticShape) (bd : List Int)
    (isIdx : Bool) (et : Nat) :
    EOp.allocOp ∉ (InsertDynamicMemrefCastOp oS rS bd isIdx et).2 := by
  intro hmem
  rcases insertCast_log_shape oS rS bd isIdx et _ hmem with
    ⟨n, h⟩ | ⟨d, h⟩ | h | ⟨d, h⟩ | h | h | h | h <;> simp at h

theorem insertCast_no_copy (oS rS : StaticShape) (bd : List Int)
    (isIdx : Bool) (et : Nat) :
    EOp.copyOp ∉ (InsertDynamicMemrefCastOp oS rS bd isIdx et).2 := by
  intro hmem
  rcases insertCast_log_shape oS rS bd isIdx et _ hmem with
    ⟨n, h⟩ | ⟨d, h⟩ | h | ⟨d, h⟩ | h | h | h | h <;> simp at h

theorem insertCast_count_reinterpret (oS rS : StaticShape) (bd : List Int)
    (isIdx : Bool) (et : Nat) :
    ((InsertDynamicMemrefCastOp oS rS bd isIdx et).2).count
      EOp.reinterpretCastOp = 1 := by
  unfold InsertDynamicMemrefCastOp
  simp only [List.count_append]
  have h1 : List.count EOp.reinterpretCastOp
      [EOp.constantIndexOp 0, EOp.constantIndexOp 1] = 0 := rfl
  have h2 : List.count EOp.reinterpretCastOp
      (computeOperandSizesStrides oS).2.2 = 0 := by
    rw [List.count_eq_zero]
    intro hmem
    rcases computeOperandSizesStrides_log_shape oS _ hmem with
      ⟨n, h⟩ | ⟨d, h⟩ | h <;> simp at h
  have h3 : List.count EOp.reinterpretCastOp
      ((((List.range rS.length).map
        (broadcastDimStep (computeOperandSizesStrides oS).1
          (computeOperandSizesStrides oS).2.1 bd rS isIdx)).map
            (fun s => s.2.2)).flatten) = 0 := by
    rw [List.count_eq_zero]
    intro hmem
    simp only [List.mem_flatten, List.mem_map] at hmem
    rcases hmem with ⟨l, ⟨⟨s, ⟨⟨idx, ⟨hidx, rfl⟩⟩, rfl⟩⟩, hel⟩⟩
    rcases broadcastDimStep_log_shape _ _ bd rS isIdx idx _ hel with
      ⟨n, h⟩ | ⟨d, h⟩ | h | h | h <;> simp at h
  rw [h1, h2, h3]
  rfl

theorem insertCast_dimOp_mem (oS rS : StaticShape) (bd : List Int)
    (isIdx : Bool) (et : Nat) (i : Nat) :
    (EOp.dimOp i ∈ (InsertDynamicMemrefCastOp oS rS bd isIdx et).2 ↔
      (i < oS.length ∧ oS.getD i none = none)) := by
  constructor
  · intro hmem
    unfold InsertDynamicMemrefCastOp at hmem
    simp only [List.mem_append, List.mem_cons, List.not_mem_nil, or_false,
      List.mem_singleton, List.mem_flatten, List.mem_map] at hmem
    rcases hmem with (((h | h) | h) | ⟨l, ⟨⟨s, ⟨⟨idx, ⟨hidx, rfl⟩⟩, rfl⟩⟩, hel⟩⟩) | h
    · simp at h
    · simp at h
    · exact (computeOperandSizesStrides_dimOp_mem oS i).mp h
    · rcases broadcastDimStep_log_shape _ _ bd rS isIdx idx _ hel with
        ⟨n, h⟩ | ⟨d, h⟩ | h | h | h <;> simp at h
    · simp at h
  · intro hcnd
    unfold InsertDynamicMemrefCastOp
    simp only [List.mem_append]
    left; left; right
    exact (computeOperandSizesStrides_dimOp_mem oS i).mpr hcnd

/-- C1: In the DynamicBroadcastInDim rewrite, for every output dimension
`d` below the result rank, the stride pushed for `d` is the constant 0
when `d` has no corresponding operand dimension in the
broadcast-dimension mapping; otherwise, with `i` the mapped operand
dimension, the pushed stride is a runtime compare-and-select
(`arith.cmpi slt` feeding `arith.select`) whose runtime value is 0 when
the operand's size for `i` is less than the target size for `d`, and the
operand's flattened linear stride for `i` when it is not. -/
theorem dynamicBroadcast_stride_selection
    (operandShape resultShape : StaticShape) (bdims : List Int)
    (isIdx : Bool) (et : Nat) (env : Env) (d : Nat)
    (hlen : bdims.length = operandShape.length)
    (hd : d < resultShape.length) :
    (outputToInputDim bdims (Int.ofNat d) = none →
      (InsertDynamicMemrefCastOp operandShape resultShape bdims isIdx
          et).1.strides.getD d (IRVal.constIndex 0) = IRVal.constIndex 0) ∧
    (∀ i, outputToInputDim bdims (Int.ofNat d) = some i →
      (InsertDynamicMemrefCastOp operandShape resultShape bdims isIdx
          et).1.strides.getD d (IRVal.constIndex 0) =
        IRVal.select
          (IRVal.cmpSlt (sizeIRVal (operandShape.getD i none) i)
            (resultDimSizeVal isIdx d))
          (IRVal.constIndex 0)
          ((computeOperandSizesStrides operandShape).2.1.getD i
            (IRVal.constIndex 1)) ∧
      IRVal.eval env
          ((InsertDynamicMemrefCastOp operandShape resultShape bdims isIdx
            et).1.strides.getD d (IRVal.constIndex 0)) =
        (if realSize env operandShape i < env.outputDims d then 0
         else flatStrideSpec env operandShape i)) := by
  constructor
  · intro hnone
    rw [insertCast_strides_getD _ _ _ _ _ _ hd]
    simp only [broadcastDimStep, hnone]
  · intro i hsome
    have hi : i < operandShape.length := by
      have := outputToInputDim_lt bdims _ i hsome
      omega
    have hsel : (InsertDynamicMemrefCastOp operandShape resultShape bdims
        isIdx et).1.strides.getD d (IRVal.constIndex 0) =
        IRVal.select
          (IRVal.cmpSlt (sizeIRVal (operandShape.getD i none) i)
            (resultDimSizeVal isIdx d))
          (IRVal.constIndex 0)
          ((computeOperandSizesStrides operandShape).2.1.getD i
            (IRVal.constIndex 1)) := by
      rw [insertCast_strides_getD _ _ _ _ _ _ hd]
      simp only [broadcastDimStep, hsome]
      rw [operandSizes_getD _ _ hi]
    refine ⟨hsel, ?_⟩
    rw [hsel, eval_strideSelect, sizeIRVal_eval, resultDimSizeVal_eval,
      operandStrides_eval]

/-- Witness for `dynamicBroadcast_stride_selection` at a concrete input:
operand shape `(1, dynamic)`, result shape `(3, 4, dynamic)`, mapping
`[1, 2]`.  Output dimension 2 maps to operand dimension 1. -/
theorem dynamicBroadcast_stride_selection_witness :
    ([(1 : Int), 2].length = [some (1 : Int), none].length ∧
      (2 : Nat) < [some (3 : Int), some 4, none].length ∧
      outputToInputDim [(1 : Int), 2] (Int.ofNat 2) = some 1) ∧
    IRVal.eval ⟨fun k => if k = 1 then 5 else 1, fun _ => 5⟩
        ((InsertDynamicMemrefCastOp [some (1 : Int), none]
          [some (3 : Int), some 4, none] [(1 : Int), 2] true
          7).1.strides.getD 2 (IRVal.constIndex 0)) =
      (if realSize ⟨fun k => if k = 1 then 5 else 1, fun _ => 5⟩
            [some (1 : Int), none] 1 <
          Env.outputDims ⟨fun k => if k = 1 then 5 else 1, fun _ => 5⟩ 2
        then 0
        else flatStrideSpec ⟨fun k => if k = 1 then 5 else 1, fun _ => 5⟩
          [some (1 : Int), none] 1) :=
  ⟨⟨by decide, by decide, by decide⟩,
    ((dynamicBroadcast_stride_selection [some (1 : Int), none]
      [some (3 : Int), some 4, none] [(1 : Int), 2] true 7
      ⟨fun k => if k = 1 then 5 else 1, fun _ => 5⟩ 2
      (by decide) (by decide)).2 1 (by decide)).2⟩

/-- C2: The DynamicBroadcastInDim rewrite computes the operand buffer's
flattened linear strides by a right-to-left scan: the stride computed
for the last operand dimension evaluates to 1, every dimension's stride
evaluates to the product of the sizes of all dimensions to its right,
and a runtime `memref.dim` read appears in the rewrite's emitted
operations exactly for those operand dimensions whose static size is
unknown. -/
theorem dynamicBroadcast_flattened_stride_scan
    (operandShape resultShape : StaticShape) (bdims : List Int)
    (isIdx : Bool) (et : Nat) (env : Env) (i : Nat) :
    IRVal.eval env ((computeOperandSizesStrides operandShape).2.1.getD
        (operandShape.length - 1) (IRVal.constIndex 1)) = 1 ∧
    IRVal.eval env ((computeOperandSizesStrides operandShape).2.1.getD i
        (IRVal.constIndex 1)) = flatStrideSpec env operandShape i ∧
    (EOp.dimOp i ∈ (InsertDynamicMemrefCastOp operandShape resultShape
        bdims isIdx et).2 ↔
      (i < operandShape.length ∧ operandShape.getD i none = none)) := by
  refine ⟨?_, operandStrides_eval operandShape env i,
    insertCast_dimOp_mem operandShape resultShape bdims isIdx et i⟩
  rw [operandStrides_eval]
  unfold flatStrideSpec
  have h : operandShape.length - (operandShape.length - 1 + 1) = 0 := by omega
  rw [h]
  rfl

/-- C4: The view built by Phase A of the DynamicBroadcastInDim rewrite
is a reinterpret cast whose result type is the type-erased memref type
(the result's static shape, the operand's element type, a strided layout
with every per-dimension stride dynamic and layout offset 0), whose
static offset operand is exactly 0; the rewrite emits exactly one
`memref.reinterpret_cast` and emits no allocation and no copy. -/
theorem dynamicBroadcast_view_structure (oS rS : StaticShape)
    (bd : List Int) (isIdx : Bool) (et : Nat) :
    (InsertDynamicMemrefCastOp oS rS bd isIdx et).1.ty =
      { shape := rS, elemTy := et,
        layout := some (List.replicate rS.length none, 0) } ∧
    (InsertDynamicMemrefCastOp oS rS bd isIdx et).1.offsetAttr = 0 ∧
    ((InsertDynamicMemrefCastOp oS rS bd isIdx et).2).count
      EOp.reinterpretCastOp = 1 ∧
    EOp.allocOp ∉ (InsertDynamicMemrefCastOp oS rS bd isIdx et).2 ∧
    EOp.copyOp ∉ (InsertDynamicMemrefCastOp oS rS bd isIdx et).2 :=
  ⟨rfl, rfl, insertCast_count_reinterpret oS rS bd isIdx et,
    insertCast_no_alloc oS rS bd isIdx et,
    insertCast_no_copy oS rS bd isIdx et⟩

/-- C5: The Reshape rewrite fails for every operand whose tensor type is
ranked, and fails when the operand buffer cannot be obtained; when the
operand is unranked and its buffer is obtained it succeeds, emitting
exactly one `memref.cast` to the identity-layout memref of the result's
static shape and element type. -/
theorem reshape_unranked_only (rs : StaticShape) (re sh_e e : Nat)
    (sh : StaticShape) (buf : Option MemRefTy) (obuf : MemRefTy) :
    ReshapeOpInterface.bufferize
      { operandType := TensorTy.ranked sh sh_e, resultShape := rs,
        resultElemTy := re } buf = SimpleOutcome.failure ∧
    ReshapeOpInterface.bufferize
      { operandType := TensorTy.unranked e, resultShape := rs,
        resultElemTy := re } none = SimpleOutcome.failure ∧
    ReshapeOpInterface.bufferize
      { operandType := TensorTy.unranked e, resultShape := rs,
        resultElemTy := re } (some obuf) =
      SimpleOutcome.success
        (BufTy.rankedBuf { shape := rs, elemTy := re, layout := none })
        [EOp.castOp] :=
  ⟨rfl, rfl, rfl⟩

/-- C6: For every operand index, the Reshape and DynamicReshape
strategies declare identical effects: no memory read, no memory write,
aliasing results exactly `{result 0}`, and buffer relation Equivalent. -/
theorem reshape_effect_declarations (i : Nat) :
    ReshapeOpInterface.effects.bufferizesToMemoryRead i = false ∧
    ReshapeOpInterface.effects.bufferizesToMemoryWrite i = false ∧
    ReshapeOpInterface.effects.getAliasingOpResult i = [0] ∧
    ReshapeOpInterface.effects.bufferRelation i = BufferRelation.Equivalent ∧
    DynamicReshapeOpInterface.effects.bufferizesToMemoryRead i =
      ReshapeOpInterface.effects.bufferizesToMemoryRead i ∧
    DynamicReshapeOpInterface.effects.bufferizesToMemoryWrite i =
      ReshapeOpInterface.effects.bufferizesToMemoryWrite i ∧
    DynamicReshapeOpInterface.effects.getAliasingOpResult i =
      ReshapeOpInterface.effects.getAliasingOpResult i ∧
    DynamicReshapeOpInterface.effects.bufferRelation i =
      ReshapeOpInterface.effects.bufferRelation i :=
  ⟨rfl, rfl, rfl, rfl, rfl, rfl, rfl, rfl⟩

/-- C7: The DynamicReshape rewrite fails when the data operand's buffer
cannot be obtained (and when the shape operand's buffer cannot be), and
on success emits exactly one `memref.reshape` parameterized by the shape
buffer, typed as a ranked memref when the result rank is statically
known and as an unranked memref otherwise. -/
theorem dynamicReshape_rewrite (sh : StaticShape) (e : Nat)
    (rt : TensorTy) (sbuf : Option MemRefTy) (obuf shapeBuf : MemRefTy) :
    DynamicReshapeOpInterface.bufferize { resultType := rt } none sbuf =
      SimpleOutcome.failure ∧
    DynamicReshapeOpInterface.bufferize { resultType := rt } (some obuf)
      none = SimpleOutcome.failure ∧
    DynamicReshapeOpInterface.bufferize
      { resultType := TensorTy.ranked sh e } (some obuf) (some shapeBuf) =
      SimpleOutcome.success
        (BufTy.rankedBuf { shape := sh, elemTy := e, layout := none })
        [EOp.reshapeOp] ∧
    DynamicReshapeOpInterface.bufferize
      { resultType := TensorTy.unranked e } (some obuf) (some shapeBuf) =
      SimpleOutcome.success (BufTy.unrankedBuf e 0) [EOp.reshapeOp] :=
  ⟨rfl, rfl, rfl, rfl⟩

/-- C8: For every operand index, the DynamicBroadcastInDim strategy
declares a memory read and no memory write, its aliasing-results query
returns exactly `{result 0}`, and its buffer relation for the result is
the no-aliasing-guarantee value (spelled `BufferRelation::None` in the
source), not Equivalent. -/
theorem dynamicBroadcast_effect_declarations (i : Nat) :
    DynamicBroadcastInDimOpInterface.effects.bufferizesToMemoryRead i =
      true ∧
    DynamicBroadcastInDimOpInterface.effects.bufferizesToMemoryWrite i =
      false ∧
    DynamicBroadcastInDimOpInterface.effects.getAliasingOpResult i = [0] ∧
    DynamicBroadcastInDimOpInterface.effects.bufferRelation i =
      BufferRelation.None ∧
    DynamicBroadcastInDimOpInterface.effects.bufferRelation i ≠
      BufferRelation.Equivalent :=
  ⟨rfl, rfl, rfl, rfl, fun h => by cases h⟩

theorem createCopy_dynamicSizes (isIdx : Bool) (broadTy : MemRefTy) :
    (CreateCopy isIdx broadTy).1.dynamicSizes =
      ((List.range broadTy.shape.length).filter
        (fun i => (broadTy.shape.getD i none).isNone)).map
        (resultDimSizeVal isIdx) := by
  unfold CreateCopy
  simp only [List.map_map]
  generalize List.range broadTy.shape.length = L
  induction L with
  | nil => rfl
  | cons a L ih =>
      simp only [List.map_cons, List.flatten_cons, List.filter_cons,
        Function.comp]
      cases hsp : broadTy.shape.getD a none with
      | none => simpa [hsp] using ih
      | some n => simpa [hsp] using ih

theorem createCopy_alloc_mem (isIdx : Bool) (broadTy : MemRefTy) :
    EOp.allocOp ∈ (CreateCopy isIdx broadTy).2 ∧
      EOp.copyOp ∈ (CreateCopy isIdx broadTy).2 := by
  constructor <;> · unfold CreateCopy; simp

/-- C3: After the strided view is built, the DynamicBroadcastInDim
rewrite consults the dialect policy with the operation: when the policy
returns true it allocates an identity-layout buffer of the result's
shape with the dynamic dimension sizes drawn from the shape operand,
emits a copy, and the copy is the bufferized result; when the policy
returns false the strided view itself is the result and no allocation or
copy is emitted. -/
theorem dynamicBroadcast_materialization_policy (rShape : StaticShape)
    (e : Nat) (bd : List Int) (isIdx : Bool) (obuf : MemRefTy)
    (st : MhloBufferizationState) :
    (st.enforce_identity_map_fn
        { resultType := TensorTy.ranked rShape e,
          broadcast_dimensions := bd, outputDimsIsIndex := isIdx } = true →
      ∃ a log,
        DynamicBroadcastInDimOpInterface.bufferize
          { resultType := TensorTy.ranked rShape e,
            broadcast_dimensions := bd, outputDimsIsIndex := isIdx }
          (some obuf) (some st) =
          DynBroadcastOutcome.success (BufValue.copied a) log ∧
        a.ty = { shape := rShape, elemTy := obuf.elemTy, layout := none } ∧
        a.dynamicSizes =
          ((List.range rShape.length).filter
            (fun i => (rShape.getD i none).isNone)).map
            (resultDimSizeVal isIdx) ∧
        EOp.allocOp ∈ log ∧ EOp.copyOp ∈ log) ∧
    (st.enforce_identity_map_fn
        { resultType := TensorTy.ranked rShape e,
          broadcast_dimensions := bd, outputDimsIsIndex := isIdx } = false →
      DynamicBroadcastInDimOpInterface.bufferize
        { resultType := TensorTy.ranked rShape e,
          broadcast_dimensions := bd, outputDimsIsIndex := isIdx }
        (some obuf) (some st) =
        DynBroadcastOutcome.success
          (BufValue.view (InsertDynamicMemrefCastOp obuf.shape rShape bd
            isIdx obuf.elemTy).1)
          (InsertDynamicMemrefCastOp obuf.shape rShape bd isIdx
            obuf.elemTy).2 ∧
      EOp.allocOp ∉ (InsertDynamicMemrefCastOp obuf.shape rShape bd isIdx
        obuf.elemTy).2 ∧
      EOp.copyOp ∉ (InsertDynamicMemrefCastOp obuf.shape rShape bd isIdx
        obuf.elemTy).2) := by
  constructor
  · intro hpol
    refine ⟨(CreateCopy isIdx (InsertDynamicMemrefCastOp obuf.shape rShape
        bd isIdx obuf.elemTy).1.ty).1,
      (InsertDynamicMemrefCastOp obuf.shape rShape bd isIdx obuf.elemTy).2
        ++ (CreateCopy isIdx (InsertDynamicMemrefCastOp obuf.shape rShape
          bd isIdx obuf.elemTy).1.ty).2, ?_, rfl, ?_, ?_, ?_⟩
    · simp [DynamicBroadcastInDimOpInterface.bufferize, hpol]
    · exact createCopy_dynamicSizes isIdx _
    · exact List.mem_append_right _ (createCopy_alloc_mem isIdx _).1
    · exact List.mem_append_right _ (createCopy_alloc_mem isIdx _).2
  · intro hpol
    refine ⟨?_, insertCast_no_alloc _ _ _ _ _, insertCast_no_copy _ _ _ _ _⟩
    simp [DynamicBroadcastInDimOpInterface.bufferize, hpol]

/-- Witness for `dynamicBroadcast_materialization_policy` at a concrete
input: result shape `(dynamic)`, empty mapping, rank-0 operand, with the
constant-true policy for the first branch and the constant-false policy
for the second. -/
theorem dynamicBroadcast_materialization_policy_witness :
    (∃ a log,
      DynamicBroadcastInDimOpInterface.bufferize
        { resultType := TensorTy.ranked [none] 0,
          broadcast_dimensions := [], outputDimsIsIndex := true }
        (some { shape := [], elemTy := 0, layout := none })
        (some { enforce_identity_map_fn := fun _ => true }) =
        DynBroadcastOutcome.success (BufValue.copied a) log ∧
      a.ty = { shape := [none], elemTy := 0, layout := none } ∧
      a.dynamicSizes =
        ((List.range ([none] : StaticShape).length).filter
          (fun i => (([none] : StaticShape).getD i none).isNone)).map
          (resultDimSizeVal true) ∧
      EOp.allocOp ∈ log ∧ EOp.copyOp ∈ log) ∧
    (DynamicBroadcastInDimOpInterface.bufferize
        { resultType := TensorTy.ranked [none] 0,
          broadcast_dimensions := [], outputDimsIsIndex := true }
        (some { shape := [], elemTy := 0, layout := none })
        (some { enforce_identity_map_fn := fun _ => false }) =
        DynBroadcastOutcome.success
          (BufValue.view (InsertDynamicMemrefCastOp [] [none] [] true 0).1)
          (InsertDynamicMemrefCastOp [] [none] [] true 0).2 ∧
      EOp.allocOp ∉ (InsertDynamicMemrefCastOp [] [none] [] true 0).2 ∧
      EOp.copyOp ∉ (InsertDynamicMemrefCastOp [] [none] [] true 0).2) :=
  ⟨(dynamicBroadcast_materialization_policy [none] 0 [] true
      { shape := [], elemTy := 0, layout := none }
      { enforce_identity_map_fn := fun _ => true }).1 rfl,
    (dynamicBroadcast_materialization_policy [none] 0 [] true
      { shape := [], elemTy := 0, layout := none }
      { enforce_identity_map_fn := fun _ => false }).2 rfl⟩

/-- C9: Reaching the materialization phase of the DynamicBroadcastInDim
rewrite (ranked result, operand buffer obtained) with the mhlo dialect
state absent is the assertion failure at source line 306; and for the
options that `HloLegalizeToMemrefPass::runOnOperation` builds — which
register a dialect-state initializer for the mhlo namespace before
bufferization runs — the dialect-state lookup yields the registered
policy, so the rewrite can never reach the assertion failure. -/
theorem dynamicBroadcast_policy_assertion (rShape : StaticShape) (e : Nat)
    (bd : List Int) (isIdx : Bool) (obuf : MemRefTy)
    (base : MhloBufferizationState) (op : DynamicBroadcastInDimOp)
    (obufOpt : Option MemRefTy) :
    DynamicBroadcastInDimOpInterface.bufferize
      { resultType := TensorTy.ranked rShape e, broadcast_dimensions := bd,
        outputDimsIsIndex := isIdx } (some obuf) none =
      DynBroadcastOutcome.assertFail ∧
    getDialectState (hloLegalizeToMemrefOptions base) mhloDialectNamespace =
      some base ∧
    DynamicBroadcastInDimOpInterface.bufferize op obufOpt
      (getDialectState (hloLegalizeToMemrefOptions base)
        mhloDialectNamespace) ≠ DynBroadcastOutcome.assertFail := by
  refine ⟨rfl, rfl, ?_⟩
  have hstate : getDialectState (hloLegalizeToMemrefOptions base)
      mhloDialectNamespace = some base := rfl
  rw [hstate]
  rcases op with ⟨rt, bdims, idx⟩
  rcases rt with ⟨sh, ee⟩ | ee
  · rcases obufOpt with _ | ob
    · simp [DynamicBroadcastInDimOpInterface.bufferize]
    · by_cases hp : base.enforce_identity_map_fn
        { resultType := TensorTy.ranked sh ee,
          broadcast_dimensions := bdims, outputDimsIsIndex := idx } = true
      · simp [DynamicBroadcastInDimOpInterface.bufferize, hp]
      · simp [DynamicBroadcastInDimOpInterface.bufferize, hp]
  · simp [DynamicBroadcastInDimOpInterface.bufferize]

theorem insertCast_depends_only_on_map (oS rS : StaticShape)
    (bd bd2 : List Int) (isIdx : Bool) (et : Nat)
    (h : ∀ i : Nat, i < rS.length →
      outputToInputDim bd (Int.ofNat i) = outputToInputDim bd2 (Int.ofNat i)) :
    InsertDynamicMemrefCastOp oS rS bd isIdx et =
      InsertDynamicMemrefCastOp oS rS bd2 isIdx et := by
  simp only [InsertDynamicMemrefCastOp]
  have hsteps : (List.range rS.length).map
      (broadcastDimStep (computeOperandSizesStrides oS).1
        (computeOperandSizesStrides oS).2.1 bd rS isIdx) =
    (List.range rS.length).map
      (broadcastDimStep (computeOperandSizesStrides oS).1
        (computeOperandSizesStrides oS).2.1 bd2 rS isIdx) := by
    apply List.map_congr_left
    intro i hi
    rw [List.mem_range] at hi
    unfold broadcastDimStep
    rw [h i hi]
  rw [hsteps]

/-- C10: The DynamicBroadcastInDim rewrite performs no validation of the
broadcast-dimension mapping: for any mapping (given a ranked result and
an obtainable operand buffer and dialect state) the rewrite returns
success; appending a mapping entry with an already-used output index
silently overwrites the earlier entry in the output-to-input map; and
the rewrite's result depends on the mapping only through that map's
values at the in-range output dimensions, so out-of-range entries are
silently ignored. -/
theorem dynamicBroadcast_no_mapping_validation (rShape : StaticShape)
    (e et : Nat) (isIdx : Bool) (obuf : MemRefTy)
    (st : MhloBufferizationState) (bd bd2 : List Int) (v d : Int)
    (hmap : ∀ i : Nat, i < rShape.length →
      outputToInputDim bd (Int.ofNat i) =
        outputToInputDim bd2 (Int.ofNat i)) :
    (∃ res log,
      DynamicBroadcastInDimOpInterface.bufferize
        { resultType := TensorTy.ranked rShape e,
          broadcast_dimensions := bd, outputDimsIsIndex := isIdx }
        (some obuf) (some st) = DynBroadcastOutcome.success res log) ∧
    outputToInputDim (bd ++ [v]) d =
      (if v = d then some bd.length else outputToInputDim bd d) ∧
    InsertDynamicMemrefCastOp obuf.shape rShape bd isIdx et =
      InsertDynamicMemrefCastOp obuf.shape rShape bd2 isIdx et := by
  refine ⟨?_, outputToInputDim_append bd v d,
    insertCast_depends_only_on_map obuf.shape rShape bd bd2 isIdx et hmap⟩
  by_cases hp : st.enforce_identity_map_fn
      { resultType := TensorTy.ranked rShape e,
        broadcast_dimensions := bd, outputDimsIsIndex := isIdx } = true
  · exact ⟨BufValue.copied (CreateCopy isIdx (InsertDynamicMemrefCastOp
        obuf.shape rShape bd isIdx obuf.elemTy).1.ty).1,
      (InsertDynamicMemrefCastOp obuf.shape rShape bd isIdx obuf.elemTy).2 ++
        (CreateCopy isIdx (InsertDynamicMemrefCastOp obuf.shape rShape bd
          isIdx obuf.elemTy).1.ty).2,
      by simp [DynamicBroadcastInDimOpInterface.bufferize, hp]⟩
  · exact ⟨BufValue.view (InsertDynamicMemrefCastOp obuf.shape rShape bd
        isIdx obuf.elemTy).1,
      (InsertDynamicMemrefCastOp obuf.shape rShape bd isIdx obuf.elemTy).2,
      by simp [DynamicBroadcastInDimOpInterface.bufferize, hp]⟩

/-- Witness for `dynamicBroadcast_no_mapping_validation` at a concrete
input: result shape `(2)`, a mapping `[0, 0, 5]` with a duplicate output
index 0 and an out-of-range index 5, compared against `[7, 0]`, which
induces the same output-to-input map on the single in-range output
dimension. -/
theorem dynamicBroadcast_no_mapping_validation_witness :
    (∀ i : Nat, i < ([some (2 : Int)] : StaticShape).length →
      outputToInputDim [(0 : Int), 0, 5] (Int.ofNat i) =
        outputToInputDim [(7 : Int), 0] (Int.ofNat i)) ∧
    ((∃ res log,
      DynamicBroadcastInDimOpInterface.bufferize
        { resultType := TensorTy.ranked [some (2 : Int)] 0,
          broadcast_dimensions := [(0 : Int), 0, 5],
          outputDimsIsIndex := true }
        (some { shape := [some (1 : Int)], elemTy := 0, layout := none })
        (some { enforce_identity_map_fn := fun _ => false }) =
        DynBroadcastOutcome.success res log) ∧
    outputToInputDim ([(0 : Int), 0, 5] ++ [(0 : Int)]) 0 =
      (if (0 : Int) = 0 then some ([(0 : Int), 0, 5]).length
       else outputToInputDim [(0 : Int), 0, 5] 0) ∧
    InsertDynamicMemrefCastOp [some (1 : Int)] [some (2 : Int)]
        [(0 : Int), 0, 5] true 3 =
      InsertDynamicMemrefCastOp [some (1 : Int)] [some (2 : Int)]
        [(7 : Int), 0] true 3) :=
  ⟨by decide,
    dynamicBroadcast_no_mapping_validation [some (2 : Int)] 0 3 true
      { shape := [some (1 : Int)], elemTy := 0, layout := none }
      { enforce_identity_map_fn := fun _ => false }
      [(0 : Int), 0, 5] [(7 : Int), 0] 0 0 (by decide)⟩
